import Mathlib

/-!
Verification of the netconnector mDNS engine core (`src/mdns/mdns.cc`,
`src/mdns/dns_message.cc`) against its natural-language specification.

The embedding below is a shallow model of the engine, translated from the
C++ source:

* `ftl::TimePoint` is modelled as `WithTop Nat`: int64 ticks, with
  `ftl::TimePoint::Max()` (the greatest representable time) modelled as `⊤`.
* `std::shared_ptr<DnsResource>` identity (pointer equality) is modelled as a
  `ResourceId : Nat`; the shared mutable `time_to_live_` field of each live
  resource object lives in a store `TtlStore : ResourceId → Nat`.
* The three `std::priority_queue`s (min-heaps keyed on time) are modelled as
  lists in the order the heap yields its elements, i.e. sorted by time;
  `top()` is the head, `pop()` drops the head, `emplace` is ordered insertion.
* `FTL_DCHECK` is modelled with release-build semantics (the check is
  compiled out), matching the spec's own treatment of release builds.
-/

namespace Netconnector

/-- `ftl::TimePoint`: int64 ticks; `⊤` models `ftl::TimePoint::Max()`. -/
abbrev TimePoint := WithTop Nat

/-- `MdnsResourceSection` from the mdns headers: the section a queued resource
is destined for, or `kExpired` for the internal expiration signal. -/
inductive MdnsResourceSection where
  | kAnswer
  | kAuthority
  | kAdditional
  | kExpired
deriving DecidableEq, Repr

/-- Pointer identity of a `std::shared_ptr<DnsResource>`. -/
abbrev ResourceId := Nat

/-- Pointer identity of a `std::shared_ptr<DnsQuestion>`. -/
abbrev QuestionId := Nat

/-- The `time_to_live_` field of every live `DnsResource` object, indexed by
object identity (the field is mutable and shared through the queue). -/
abbrev TtlStore := ResourceId → Nat

/-- `kCancelTimeToLive = std::numeric_limits<uint32_t>::max()` (mdns.cc:26). -/
def kCancelTimeToLive : Nat := 2 ^ 32 - 1

/-- `kMessageAggregationWindowSize = 100ms` (mdns.cc:29), in tick units. -/
def kMessageAggregationWindowSize : Nat := 100

/-- An entry of `question_queue_`: `(time_, question_)`. -/
structure QuestionEntry where
  time_ : TimePoint
  question_ : QuestionId
deriving DecidableEq, Repr

/-- An entry of `resource_queue_`: `(time_, resource_, section_)`. -/
structure ResourceEntry where
  time_ : TimePoint
  resource_ : ResourceId
  section_ : MdnsResourceSection
deriving DecidableEq, Repr

/-- An entry of `wake_queue_`: `(time_, agent_)` where the agent is identified
by the `shared_ptr` identity of the `MdnsAgent`. -/
structure WakeEntry where
  time_ : TimePoint
  agent_ : Nat
deriving DecidableEq, Repr

/-- The `DnsMessage` being assembled by `Mdns::SendMessage` (mdns.cc:221):
question identities plus resource identities per section.  Header fields and
counts play no role in the claims proved here and are omitted. -/
structure OutMessage where
  questions_ : List QuestionId
  answers_ : List ResourceId
  authorities_ : List ResourceId
  additionals_ : List ResourceId
deriving DecidableEq, Repr

/-- All resource references of a message, across the three sections. -/
def msgResources (m : OutMessage) : List ResourceId :=
  m.answers_ ++ m.authorities_ ++ m.additionals_

/-- The question-draining loop of `Mdns::SendMessage` (mdns.cc:225-229):
while the queue is nonempty and the head is due, move the head question into
`message.questions_` and clear `empty`.  Returns the drained questions, the
remaining queue, and the `empty` flag contribution (`true` iff no question
was drained). -/
def questionLoop (now : TimePoint) : List QuestionEntry → List QuestionId × List QuestionEntry × Bool
  | [] => ([], [], true)
  | e :: rest =>
    if e.time_ ≤ now then
      let r := questionLoop now rest
      (e.question_ :: r.1, r.2.1, false)
    else
      ([], e :: rest, true)

/-- The resource-draining loop of `Mdns::SendMessage` (mdns.cc:235-267).
While the head entry is due: a tombstoned resource (`time_to_live_ ==
kCancelTimeToLive`) is popped and skipped; a resource already in
`resources_added` is popped and skipped; otherwise the resource is inserted
into `resources_added`, routed by its section tag (an entry with section
`kExpired` hits `FTL_DCHECK(false)` and adds nothing), the entry is popped
and `empty` is cleared.  Arguments: due-time bound, TTL store, remaining
queue, `resources_added`, message accumulator, `empty` flag. -/
def resourceLoop (now : TimePoint) (ttl : TtlStore) :
    List ResourceEntry → List ResourceId → OutMessage → Bool →
    OutMessage × List ResourceEntry × Bool
  | [], _, msg, emp => (msg, [], emp)
  | e :: rest, added, msg, emp =>
    if e.time_ ≤ now then
      if ttl e.resource_ = kCancelTimeToLive then
        resourceLoop now ttl rest added msg emp
      else if e.resource_ ∈ added then
        resourceLoop now ttl rest added msg emp
      else
        let msg' :=
          match e.section_ with
          | .kAnswer => { msg with answers_ := msg.answers_ ++ [e.resource_] }
          | .kAuthority => { msg with authorities_ := msg.authorities_ ++ [e.resource_] }
          | .kAdditional => { msg with additionals_ := msg.additionals_ ++ [e.resource_] }
          | .kExpired => msg
        resourceLoop now ttl rest (e.resource_ :: added) msg' false
    else
      (msg, e :: rest, emp)

/-- Whether the resource drain of one `Mdns::SendMessage` call dequeues a
due, non-tombstoned, not-yet-added entry whose section tag is `kExpired` —
exactly the entries that reach `FTL_DCHECK(false)` (mdns.cc:260-262) and
clear `empty` without adding anything to the message.  The recursion tracks
`resources_added` precisely as `resourceLoop` does. -/
def expiredProcessed (now : TimePoint) (ttl : TtlStore) :
    List ResourceEntry → List ResourceId → Bool
  | [], _ => false
  | e :: rest, added =>
    if e.time_ ≤ now then
      if ttl e.resource_ = kCancelTimeToLive then
        expiredProcessed now ttl rest added
      else if e.resource_ ∈ added then
        expiredProcessed now ttl rest added
      else
        match e.section_ with
        | .kExpired => true
        | _ => expiredProcessed now ttl rest (e.resource_ :: added)
    else false

/-- The post-send goodbye rewrite of `Mdns::SendMessage` (mdns.cc:287-303):
for each resource reference of one section in order, if the object's current
`time_to_live_` is 0, set it to `kCancelTimeToLive`. -/
def goodbyeRewrite (rids : List ResourceId) (ttl : TtlStore) : TtlStore :=
  rids.foldl
    (fun acc rid =>
      if acc rid = 0 then fun r => if r = rid then kCancelTimeToLive else acc r else acc)
    ttl

/-- The part of the engine state `Mdns::SendMessage` reads and writes. -/
structure SendState where
  question_queue_ : List QuestionEntry
  resource_queue_ : List ResourceEntry
  ttl : TtlStore

/-- Result of one `Mdns::SendMessage` call: the message handed to
`transceiver_.SendMessage` (or `none` when `empty` held and the engine sent
nothing), and the updated state. -/
structure SendOutcome where
  sent : Option OutMessage
  question_queue_ : List QuestionEntry
  resource_queue_ : List ResourceEntry
  ttl : TtlStore

/-- The due-time bound of one assembly: `now = ftl::TimePoint::Now() +
kMessageAggregationWindowSize` (mdns.cc:219), with `now0` the current time
in ticks. -/
def aggregationDeadline (now0 : Nat) : TimePoint :=
  ((now0 + kMessageAggregationWindowSize : Nat) : TimePoint)

/-- The question-drain part of one `Mdns::SendMessage` call. -/
def builtQuestions (st : SendState) (now0 : Nat) :
    List QuestionId × List QuestionEntry × Bool :=
  questionLoop (aggregationDeadline now0) st.question_queue_

/-- The resource-drain part of one `Mdns::SendMessage` call, started on the
message holding the drained questions, with `resources_added` empty. -/
def builtLoop (st : SendState) (now0 : Nat) :
    OutMessage × List ResourceEntry × Bool :=
  resourceLoop (aggregationDeadline now0) st.ttl st.resource_queue_ []
    ⟨(builtQuestions st now0).1, [], [], []⟩ (builtQuestions st now0).2.2

/-- `Mdns::SendMessage` (mdns.cc:214-304).  `now0` is `ftl::TimePoint::Now()`
in ticks; the loops drain entries due before `now0 + 100ms`.  If nothing was
drained (`empty`), the function returns without sending; otherwise the message
goes to the transceiver, after which every resource referenced by the message
whose `time_to_live_` is 0 is rewritten to `kCancelTimeToLive`. -/
def sendMessage (st : SendState) (now0 : Nat) : SendOutcome :=
  let qr := builtQuestions st now0
  let rr := builtLoop st now0
  if rr.2.2 then
    { sent := none
      question_queue_ := qr.2.1
      resource_queue_ := rr.2.1
      ttl := st.ttl }
  else
    { sent := some rr.1
      question_queue_ := qr.2.1
      resource_queue_ := rr.2.1
      ttl := goodbyeRewrite rr.1.additionals_
          (goodbyeRewrite rr.1.authorities_ (goodbyeRewrite rr.1.answers_ st.ttl)) }

/-- Ordering of queue entries by due time (the priority-queue order). -/
def entryLe (a b : ResourceEntry) : Prop := a.time_ ≤ b.time_

instance : DecidableRel entryLe := fun a b => inferInstanceAs (Decidable (a.time_ ≤ b.time_))

/-- The `when` computation of `Mdns::PostTask` (mdns.cc:323-335): start from
`ftl::TimePoint::Max()`, take the wake-queue head time if that queue is
nonempty, then lower `when` to the question-queue and resource-queue head
times when those are sooner. -/
def postTaskWhen (wq : List WakeEntry) (qq : List QuestionEntry)
    (rq : List ResourceEntry) : TimePoint :=
  let w1 : TimePoint := match wq with | [] => ⊤ | e :: _ => e.time_
  let w2 : TimePoint := match qq with | [] => w1 | e :: _ => if w1 > e.time_ then e.time_ else w1
  let w3 : TimePoint := match rq with | [] => w2 | e :: _ => if w2 > e.time_ then e.time_ else w2
  w3

/-- `Mdns::PostTask` (mdns.cc:322-366).  If `when` is `TimePoint::Max()` the
function returns without arming a timer.  If `post_task_queue_` (a min-heap of
timestamps, modelled sorted, `top()` = head) has its top `≤ when`, the engine
is already scheduled to wake by `when` and nothing is armed.  Otherwise `when`
is pushed onto `post_task_queue_` and one timer is armed for `when` via
`task_runner_->PostTaskForTime`.  Returns the updated `post_task_queue_` and
the armed time, if any. -/
def postTask (wq : List WakeEntry) (qq : List QuestionEntry) (rq : List ResourceEntry)
    (ptq : List TimePoint) : List TimePoint × Option TimePoint :=
  let when := postTaskWhen wq qq rq
  if when = ⊤ then (ptq, none)
  else
    match ptq with
    | t :: _ =>
      if t ≤ when then (ptq, none)
      else (List.orderedInsert (· ≤ ·) when ptq, some when)
    | [] => (List.orderedInsert (· ≤ ·) when ptq, some when)

/-- A registered agent: the registry key (the `std::map` key string) and the
`shared_ptr` object identity of the `MdnsAgent`. -/
abbrev AgentEntry := String × Nat

/-- `Mdns::SendResource` (mdns.cc:175-190): when `section == kExpired` the
resource is delivered immediately to every registered agent's
`ReceiveResource(resource, kExpired)` and nothing is queued; otherwise the
entry is pushed onto `resource_queue_` and no agent callback is invoked.
Returns the `(agent identity, resource, section)` callbacks issued and the
updated queue. -/
def sendResource (agents_by_name_ : List AgentEntry) (resource_queue_ : List ResourceEntry)
    (resource : ResourceId) (sec : MdnsResourceSection) (when : TimePoint) :
    List (Nat × ResourceId × MdnsResourceSection) × List ResourceEntry :=
  if sec = MdnsResourceSection.kExpired then
    (agents_by_name_.map (fun p => (p.2, resource, MdnsResourceSection.kExpired)),
     resource_queue_)
  else
    ([], List.orderedInsert entryLe ⟨when, resource, sec⟩ resource_queue_)

/-- Modelled from the spec: `MdnsNames::LocalHostFullName` (the mdns_names
sources are absent).  Spec §4.1: the local host full name is `<host>.local.`. -/
def localHostFullName (host_name : String) : String := host_name ++ ".local."

/-- Modelled from the spec: `MdnsNames::LocalServiceFullName` (the mdns_names
sources are absent).  Spec §4.6: the service full name is `<service>.local.`. -/
def localServiceFullName (service_name : String) : String := service_name ++ ".local."

/-- Modelled from the spec: `MdnsNames::LocalInstanceFullName` (the mdns_names
sources are absent).  Spec §8: e.g. `lp1._printer._tcp.local.`. -/
def localInstanceFullName (instance_name service_name : String) : String :=
  instance_name ++ "." ++ service_name ++ ".local."

/-- Modelled from the spec: `MdnsNames::IsValidServiceName` (the mdns_names
sources are absent; the spec gives no grammar).  All the spec's valid service
names are DNS-SD names starting with an underscore (`_printer._tcp`), so the
model accepts exactly those; only the existence of some invalid name matters
to the claims below. -/
def isValidServiceName (service_name : String) : Bool :=
  service_name.data.head? == some '_'

/-- Fixed registry key `AddressResponder::kName` (declared in a header absent
from the sources; its concrete value is irrelevant to the claims). -/
def kAddressResponderName : String := "#addresses#"

/-- The agent-registry fragment of the engine state: the `agents_by_name_`
map (modelled as a key/identity pair list; only membership matters here), the
separately stored `resource_renewer_`, a counter `next_id_` handing each
`std::make_shared` call a fresh object identity, and the `started_` flag. -/
structure EngineState where
  agents_by_name_ : List AgentEntry
  resource_renewer_ : Nat
  next_id_ : Nat
  started_ : Bool
deriving DecidableEq, Repr

/-- `Mdns::AddAgent` (mdns.cc:205-212) as it affects the registry: a freshly
created agent object (identity `next_id_`) is emplaced under `name`
(`std::map::emplace` inserts only when the key is absent).  The agent's
`Start()` side effects touch the queues, not the registry, and are outside
this model. -/
def addAgent (st : EngineState) (name : String) : EngineState :=
  { st with
    agents_by_name_ :=
      if name ∈ st.agents_by_name_.map Prod.fst then st.agents_by_name_
      else st.agents_by_name_ ++ [(name, st.next_id_)]
    next_id_ := st.next_id_ + 1 }

/-- `Mdns::ResolveHostName` (mdns.cc:111-121): registers a HostNameResolver
under the host full name. -/
def resolveHostName (st : EngineState) (host_name : String) : EngineState :=
  addAgent st (localHostFullName host_name)

/-- `Mdns::SubscribeToService` (mdns.cc:123-133), release-build semantics:
`FTL_DCHECK(MdnsNames::IsValidServiceName(service_name))` is compiled out, so
the call unconditionally registers an InstanceSubscriber under the service
full name; the function returns void, so no error can be surfaced. -/
def subscribeToService (st : EngineState) (service_name : String) : EngineState :=
  addAgent st (localServiceFullName service_name)

/-- `Mdns::PublishServiceInstance` (mdns.cc:141-155), release-build
semantics: the validity `FTL_DCHECK` is compiled out and an InstancePublisher
is registered under the instance full name unconditionally. -/
def publishServiceInstance (st : EngineState) (instance_name service_name : String) :
    EngineState :=
  addAgent st (localInstanceFullName instance_name service_name)

/-- `Mdns::RemoveAgent` (mdns.cc:201-203): erases the registry entry. -/
def removeAgent (st : EngineState) (name : String) : EngineState :=
  { st with agents_by_name_ := st.agents_by_name_.filter (fun p => p.1 ≠ name) }

/-- The registry effect of `Mdns::Start` (mdns.cc:46-104): from a freshly
constructed engine, `AddAgent(AddressResponder::kName, make_shared<...>)`
registers the address responder, then `resource_renewer_ =
make_shared<ResourceRenewer>(this)` stores the renewer in its own field —
never through `AddAgent`. -/
def startEngine : EngineState :=
  let st0 : EngineState :=
    { agents_by_name_ := [], resource_renewer_ := 0, next_id_ := 0, started_ := false }
  let st1 := addAgent st0 kAddressResponderName
  { st1 with
    resource_renewer_ := st1.next_id_
    next_id_ := st1.next_id_ + 1
    started_ := true }

/-- The public engine operations that alter the registry after `Start`
(`TellAgentToQuit` calls `Quit` on the agent, which later removes itself via
`RemoveAgent`, the only registry-changing path). -/
inductive EngineOp where
  | resolveHostName (host_name : String)
  | subscribeToService (service_name : String)
  | publishServiceInstance (instance_name service_name : String)
  | removeAgent (name : String)

/-- One public operation applied to the registry state. -/
def engineStep (st : EngineState) : EngineOp → EngineState
  | .resolveHostName h => resolveHostName st h
  | .subscribeToService s => subscribeToService st s
  | .publishServiceInstance i s => publishServiceInstance st i s
  | .removeAgent n => removeAgent st n

/-- Every engine state reachable from `Start` by public operations. -/
def runEngine (ops : List EngineOp) : EngineState :=
  ops.foldl engineStep startEngine

/-- The fan-out of `Mdns::ReceiveQuestion` (mdns.cc:306-311): the loop visits
`agents_by_name_` only — "Renewer doesn't need questions".  Returns the agent
identities whose `ReceiveQuestion` is invoked. -/
def receiveQuestionRecipients (st : EngineState) : List Nat :=
  st.agents_by_name_.map Prod.snd

/-- The fan-out of `Mdns::SendResource(r, kExpired, when)` (mdns.cc:180-187):
the agent identities whose `ReceiveResource(r, kExpired)` is invoked. -/
def expiredFanoutRecipients (st : EngineState) (r : ResourceId) : List Nat :=
  (sendResource st.agents_by_name_ [] r MdnsResourceSection.kExpired ⊤).1.map Prod.fst

/-- `DnsType` tags.  The C++ enum carries the DNS wire-type values; every
value other than the eight handled explicitly in dns_message.cc falls to the
`default` cases there.  The spec calls the payload of such resources OPAQUE;
`kOpaque` stands for any such tag. -/
inductive DnsType where
  | kA
  | kNs
  | kCName
  | kPtr
  | kTxt
  | kAaaa
  | kSrv
  | kNSec
  | kOpaque
deriving DecidableEq, Repr

/-- The typed payload variants of a resource (spec §3 data model; the union
members of `DnsResource` live in a header absent from the sources).
Addresses and raw bytes are abstracted to naturals. -/
inductive DnsResourceData where
  | a (address : Nat)
  | ns (name : String)
  | cname (name : String)
  | ptr (name : String)
  | txt (strings : List String)
  | aaaa (address : Nat)
  | srv (priority weight port : Nat) (target : String)
  | nsec (next_domain : String) (bits : List Nat)
  | opaqueData (data : List Nat)
deriving DecidableEq, Repr

/-- The tag a payload variant belongs to. -/
def DnsResourceData.tag : DnsResourceData → DnsType
  | .a _ => .kA
  | .ns _ => .kNs
  | .cname _ => .kCName
  | .ptr _ => .kPtr
  | .txt _ => .kTxt
  | .aaaa _ => .kAaaa
  | .srv _ _ _ _ => .kSrv
  | .nsec _ _ => .kNSec
  | .opaqueData _ => .kOpaque

/-- `DnsResource` (spec §3): name, type tag, class, cache-flush bit, TTL and
the tagged payload union.  `payload_ = none` models a union whose active
member was never assigned (indeterminate), as after the default constructor
`DnsResource::DnsResource()` (dns_message.cc:52) or a copy whose switch hit
`default: break`. -/
structure DnsResource where
  name_ : String
  type_ : DnsType
  class_ : Nat
  cache_flush_ : Bool
  time_to_live_ : Nat
  payload_ : Option DnsResourceData
deriving DecidableEq, Repr

/-- The copy constructor `DnsResource::DnsResource(const DnsResource&)`
(dns_message.cc:54-89): the five scalar fields are copied, then a switch on
`type_` copies exactly the union member named by the tag (reading a union
member of `other` is meaningful only when it is the active one, so a
mismatched source yields an indeterminate member, modelled `none`);
`default: break` copies no member at all. -/
def copyResource (other : DnsResource) : DnsResource :=
  { name_ := other.name_
    type_ := other.type_
    class_ := other.class_
    cache_flush_ := other.cache_flush_
    time_to_live_ := other.time_to_live_
    payload_ :=
      match other.type_ with
      | .kA => match other.payload_ with | some (.a v) => some (.a v) | _ => none
      | .kNs => match other.payload_ with | some (.ns v) => some (.ns v) | _ => none
      | .kCName => match other.payload_ with | some (.cname v) => some (.cname v) | _ => none
      | .kPtr => match other.payload_ with | some (.ptr v) => some (.ptr v) | _ => none
      | .kTxt => match other.payload_ with | some (.txt v) => some (.txt v) | _ => none
      | .kAaaa => match other.payload_ with | some (.aaaa v) => some (.aaaa v) | _ => none
      | .kSrv =>
        match other.payload_ with | some (.srv p w po t) => some (.srv p w po t) | _ => none
      | .kNSec =>
        match other.payload_ with | some (.nsec n b) => some (.nsec n b) | _ => none
      | .kOpaque => none }

/-- The receiver of an inbound callback: the separately stored resource
renewer, or a registered agent (identified by its object identity). -/
inductive Recipient where
  | renewer
  | agent (a : Nat)
deriving DecidableEq, Repr

/-- One callback issued while the transceiver's inbound lambda
(mdns.cc:61-92) processes a parsed message.  `q a i`: agent `a` receives
question number `i` (`Mdns::ReceiveQuestion` skips the renewer);
`r recv s i`: `recv` receives resource number `i` of inbound section `s`;
`eom recv`: `recv` receives `EndOfMessage`.  Records are identified by their
position in their section's sequence. -/
inductive Ev where
  | q (a : Nat) (i : Nat)
  | r (recv : Recipient) (s : MdnsResourceSection) (i : Nat)
  | eom (recv : Recipient)
deriving DecidableEq, Repr

/-- `Mdns::ReceiveQuestion` (mdns.cc:306-311): question `i` delivered to each
registered agent in registry order; the renewer is skipped. -/
def receiveQuestionTrace (ags : List Nat) (i : Nat) : List Ev :=
  ags.map (fun a => Ev.q a i)

/-- `Mdns::ReceiveResource` (mdns.cc:313-320): the renewer always first, then
every registered agent in registry order. -/
def receiveResourceTrace (ags : List Nat) (s : MdnsResourceSection) (i : Nat) : List Ev :=
  Ev.r Recipient.renewer s i :: ags.map (fun a => Ev.r (Recipient.agent a) s i)

/-- mdns.cc:85-88: `EndOfMessage` to the renewer, then to every agent. -/
def endOfMessageTrace (ags : List Nat) : List Ev :=
  Ev.eom Recipient.renewer :: ags.map (fun a => Ev.eom (Recipient.agent a))

/-- The callback order of the inbound lambda (mdns.cc:69-88) for a message
with `nq` questions, `na` answers, `nau` authorities and `nad` additionals,
delivered to the registered agents `ags` (registry order): every question,
then every answer record, every authority record, every additional record
(each through `ReceiveResource`), then `EndOfMessage`. -/
def inboundTrace (nq na nau nad : Nat) (ags : List Nat) : List Ev :=
  ((List.range nq).flatMap (receiveQuestionTrace ags))
    ++ ((List.range na).flatMap (receiveResourceTrace ags MdnsResourceSection.kAnswer))
    ++ ((List.range nau).flatMap (receiveResourceTrace ags MdnsResourceSection.kAuthority))
    ++ ((List.range nad).flatMap (receiveResourceTrace ags MdnsResourceSection.kAdditional))
    ++ endOfMessageTrace ags

/-- Rank of the inbound sections in delivery order. -/
def sectionRank : MdnsResourceSection → Nat
  | .kAnswer => 1
  | .kAuthority => 2
  | .kAdditional => 3
  | .kExpired => 4

/-- The renewer is ranked before every agent within one delivery. -/
def recvRank : Recipient → Nat
  | .renewer => 0
  | .agent _ => 1

/-- Delivery phase of an event: questions, then the resource sections, then
end-of-message. -/
def phase : Ev → Nat
  | .q _ _ => 0
  | .r _ s _ => sectionRank s
  | .eom _ => 5

/-- Rank of an event within its phase: record position, with the renewer
before the agents for the same record. -/
def subRank : Ev → Nat
  | .q _ i => i
  | .r recv _ i => 2 * i + recvRank recv
  | .eom recv => recvRank recv

/-- Lexicographic order on `(phase, subRank)`. -/
def evLe (e1 e2 : Ev) : Prop :=
  phase e1 < phase e2 ∨ (phase e1 = phase e2 ∧ subRank e1 ≤ subRank e2)

/-- Strict lexicographic order on `(phase, subRank)`. -/
def evLt (e1 e2 : Ev) : Prop :=
  phase e1 < phase e2 ∨ (phase e1 = phase e2 ∧ subRank e1 < subRank e2)

example :
    (sendMessage
      { question_queue_ := []
        resource_queue_ := [⟨(5 : Nat), 0, .kAnswer⟩, ⟨(5 : Nat), 0, .kAnswer⟩, ⟨(7 : Nat), 1, .kAuthority⟩]
        ttl := fun _ => 120 } 0).sent =
    some ⟨[], [0], [1], []⟩ := by decide

example :
    (sendMessage
      { question_queue_ := []
        resource_queue_ := [⟨(5 : Nat), 0, .kExpired⟩]
        ttl := fun _ => 120 } 0).sent = some ⟨[], [], [], []⟩ := by decide

example :
    (sendMessage
      { question_queue_ := []
        resource_queue_ := [⟨(5 : Nat), 0, .kAnswer⟩]
        ttl := fun _ => kCancelTimeToLive } 0).sent = none := by decide

example :
    ((sendMessage
      { question_queue_ := []
        resource_queue_ := [⟨(5 : Nat), 3, .kAnswer⟩]
        ttl := fun _ => 0 } 0).ttl 3) = kCancelTimeToLive := by decide

lemma nodup_append_middle {α : Type} {x : α} {l1 l2 : List α}
    (h : (l1 ++ l2).Nodup) (hx : x ∉ l1 ++ l2) : (l1 ++ x :: l2).Nodup := by
  rw [List.nodup_middle, List.nodup_cons]
  exact ⟨hx, h⟩

lemma questionLoop_empty_iff (now : TimePoint) (q : List QuestionEntry) :
    (questionLoop now q).2.2 = true ↔ (questionLoop now q).1 = [] := by
  induction q with
  | nil => simp [questionLoop]
  | cons e rest ih =>
    simp only [questionLoop]
    split_ifs with h
    · simp
    · simp

lemma resourceLoop_questions (now : TimePoint) (ttl : TtlStore)
    (q : List ResourceEntry) (added : List ResourceId) (msg : OutMessage) (emp : Bool) :
    (resourceLoop now ttl q added msg emp).1.questions_ = msg.questions_ := by
  induction q generalizing added msg emp with
  | nil => simp [resourceLoop]
  | cons e rest ih =>
    simp only [resourceLoop]
    split_ifs with h1 h2 h3
    · exact ih added msg emp
    · exact ih added msg emp
    · cases hs : e.section_ <;> simp only [hs] <;> exact ih _ _ _
    · rfl

lemma resourceLoop_mem_mono (now : TimePoint) (ttl : TtlStore)
    (q : List ResourceEntry) (added : List ResourceId) (msg : OutMessage) (emp : Bool) :
    ∀ r ∈ msgResources msg, r ∈ msgResources (resourceLoop now ttl q added msg emp).1 := by
  induction q generalizing added msg emp with
  | nil => simp [resourceLoop]
  | cons e rest ih =>
    intro r hr
    simp only [resourceLoop]
    split_ifs with h1 h2 h3
    · exact ih added msg emp r hr
    · exact ih added msg emp r hr
    · cases hs : e.section_ <;> simp only [hs] <;>
        refine ih _ _ _ r ?_ <;>
        (simp [msgResources] at hr ⊢; tauto)
    · exact hr

lemma resourceLoop_nodup (now : TimePoint) (ttl : TtlStore)
    (q : List ResourceEntry) (added : List ResourceId) (msg : OutMessage) (emp : Bool)
    (hnd : (msgResources msg).Nodup) (hsub : ∀ r ∈ msgResources msg, r ∈ added) :
    (msgResources (resourceLoop now ttl q added msg emp).1).Nodup := by
  induction q generalizing added msg emp with
  | nil => simpa [resourceLoop] using hnd
  | cons e rest ih =>
    simp only [resourceLoop]
    split_ifs with h1 h2 h3
    · exact ih added msg emp hnd hsub
    · exact ih added msg emp hnd hsub
    · have hxnotin : e.resource_ ∉ msgResources msg := fun hc => h3 (hsub _ hc)
      have hsub' : ∀ msg' : OutMessage,
          (∀ r, r ∈ msgResources msg' ↔ r = e.resource_ ∨ r ∈ msgResources msg) →
          ∀ r ∈ msgResources msg', r ∈ e.resource_ :: added := by
        intro msg' hchar r hr
        rcases (hchar r).mp hr with rfl | hr
        · exact List.mem_cons_self _ _
        · exact List.mem_cons_of_mem _ (hsub r hr)
      cases hs : e.section_ <;> simp only [hs]
      · refine ih _ _ _ ?_ (hsub' _ ?_)
        · simp only [msgResources] at hnd hxnotin ⊢
          have heq : msg.answers_ ++ [e.resource_] ++ msg.authorities_ ++ msg.additionals_ =
              msg.answers_ ++ e.resource_ :: (msg.authorities_ ++ msg.additionals_) := by
            simp [List.append_assoc]
          rw [heq]
          exact nodup_append_middle (by simpa [List.append_assoc] using hnd)
            (by simpa [List.append_assoc] using hxnotin)
        · intro r; simp [msgResources]; tauto
      · refine ih _ _ _ ?_ (hsub' _ ?_)
        · simp only [msgResources] at hnd hxnotin ⊢
          have heq : msg.answers_ ++ (msg.authorities_ ++ [e.resource_]) ++ msg.additionals_ =
              (msg.answers_ ++ msg.authorities_) ++ e.resource_ :: msg.additionals_ := by
            simp [List.append_assoc]
          rw [heq]
          exact nodup_append_middle (by simpa [List.append_assoc] using hnd)
            (by simpa [List.append_assoc] using hxnotin)
        · intro r; simp [msgResources]; tauto
      · refine ih _ _ _ ?_ (hsub' _ ?_)
        · simp only [msgResources] at hnd hxnotin ⊢
          have heq : msg.answers_ ++ msg.authorities_ ++ (msg.additionals_ ++ [e.resource_]) =
              (msg.answers_ ++ msg.authorities_ ++ msg.additionals_) ++ e.resource_ :: [] := by
            simp [List.append_assoc]
          rw [heq]
          exact nodup_append_middle (by simpa [List.append_assoc] using hnd)
            (by simpa [List.append_assoc] using hxnotin)
        · intro r; simp [msgResources]; tauto
      · exact ih _ _ _ hnd fun r hr => List.mem_cons_of_mem _ (hsub r hr)
    · exact hnd

lemma resourceLoop_ttl_ne (now : TimePoint) (ttl : TtlStore)
    (q : List ResourceEntry) (added : List ResourceId) (msg : OutMessage) (emp : Bool)
    (h : ∀ r ∈ msgResources msg, ttl r ≠ kCancelTimeToLive) :
    ∀ r ∈ msgResources (resourceLoop now ttl q added msg emp).1, ttl r ≠ kCancelTimeToLive := by
  induction q generalizing added msg emp with
  | nil => simpa [resourceLoop] using h
  | cons e rest ih =>
    simp only [resourceLoop]
    split_ifs with h1 h2 h3
    · exact ih added msg emp h
    · exact ih added msg emp h
    · cases hs : e.section_ <;> simp only [hs] <;>
        refine ih _ _ _ ?_ <;>
        intro r hr <;>
        by_cases hre : r = e.resource_
      · rw [hre]; exact h2
      · exact h r (by simp [msgResources] at hr ⊢; tauto)
      · rw [hre]; exact h2
      · exact h r (by simp [msgResources] at hr ⊢; tauto)
      · rw [hre]; exact h2
      · exact h r (by simp [msgResources] at hr ⊢; tauto)
      · rw [hre]; exact h2
      · exact h r (by simp [msgResources] at hr ⊢; tauto)
    · exact h

lemma resourceLoop_rest_not_due (now : TimePoint) (ttl : TtlStore)
    (q : List ResourceEntry) (added : List ResourceId) (msg : OutMessage) (emp : Bool)
    (hsort : q.Pairwise entryLe) :
    ∀ e ∈ (resourceLoop now ttl q added msg emp).2.1, ¬ e.time_ ≤ now := by
  induction q generalizing added msg emp with
  | nil => simp [resourceLoop]
  | cons e rest ih =>
    rcases List.pairwise_cons.mp hsort with ⟨hhead, htail⟩
    simp only [resourceLoop]
    split_ifs with h1 h2 h3
    · exact ih added msg emp htail
    · exact ih added msg emp htail
    · cases hs : e.section_ <;> simp only [hs] <;> exact ih _ _ _ htail
    · intro e' he'
      simp at he'
      rcases he' with he' | he'
      · rw [he']; exact h1
      · intro hc
        exact h1 (le_trans (hhead e' he') hc)

lemma resourceLoop_emp_mono (now : TimePoint) (ttl : TtlStore)
    (q : List ResourceEntry) (added : List ResourceId) (msg : OutMessage) (emp : Bool) :
    (resourceLoop now ttl q added msg emp).2.2 = true → emp = true := by
  induction q generalizing added msg emp with
  | nil => simp [resourceLoop]
  | cons e rest ih =>
    simp only [resourceLoop]
    split_ifs with h1 h2 h3
    · exact ih added msg emp
    · exact ih added msg emp
    · intro h
      cases hs : e.section_ <;> simp only [hs] at h <;> exact absurd (ih _ _ _ h) (by simp)
    · simp

lemma resourceLoop_emp_false (now : TimePoint) (ttl : TtlStore)
    (q : List ResourceEntry) (added : List ResourceId) (msg : OutMessage) (emp : Bool)
    (hexp : expiredProcessed now ttl q added = false) :
    (resourceLoop now ttl q added msg emp).2.2 = false →
      emp = false ∨ msgResources (resourceLoop now ttl q added msg emp).1 ≠ [] := by
  induction q generalizing added msg emp with
  | nil => simp [resourceLoop]; intro h; exact Or.inl h
  | cons e rest ih =>
    simp only [resourceLoop]
    split_ifs with h1 h2 h3
    · have hexptail : expiredProcessed now ttl rest added = false := by
        simpa [expiredProcessed, h1, h2] using hexp
      exact ih added msg emp hexptail
    · have hexptail : expiredProcessed now ttl rest added = false := by
        simpa [expiredProcessed, h1, h2, h3] using hexp
      exact ih added msg emp hexptail
    · intro _
      cases hs : e.section_
      · simp only [hs]
        refine Or.inr (List.ne_nil_of_mem (a := e.resource_) ?_)
        exact resourceLoop_mem_mono now ttl rest _ _ _ e.resource_ (by simp [msgResources])
      · simp only [hs]
        refine Or.inr (List.ne_nil_of_mem (a := e.resource_) ?_)
        exact resourceLoop_mem_mono now ttl rest _ _ _ e.resource_ (by simp [msgResources])
      · simp only [hs]
        refine Or.inr (List.ne_nil_of_mem (a := e.resource_) ?_)
        exact resourceLoop_mem_mono now ttl rest _ _ _ e.resource_ (by simp [msgResources])
      · exfalso
        have htrue : expiredProcessed now ttl (e :: rest) added = true := by
          simp [expiredProcessed, h1, h2, h3, hs]
        rw [htrue] at hexp
        simp at hexp
    · intro h; exact Or.inl h

lemma iff_extend {x : ResourceId} {added : List ResourceId} {msg msg' : OutMessage}
    (hiff : ∀ r, r ∈ added ↔ r ∈ msgResources msg)
    (hchar : ∀ r, r ∈ msgResources msg' ↔ r = x ∨ r ∈ msgResources msg) :
    ∀ r, r ∈ x :: added ↔ r ∈ msgResources msg' := by
  intro r
  rw [List.mem_cons, hchar r, hiff r]

set_option maxHeartbeats 1000000 in
lemma resourceLoop_mem_of_due (now : TimePoint) (ttl : TtlStore)
    (q : List ResourceEntry) (added : List ResourceId) (msg : OutMessage) (emp : Bool)
    (hsort : q.Pairwise entryLe)
    (hexp : ∀ e ∈ q, e.section_ ≠ MdnsResourceSection.kExpired)
    (hiff : ∀ r, r ∈ added ↔ r ∈ msgResources msg)
    (rid : ResourceId) (hrid : ttl rid ≠ kCancelTimeToLive)
    (hsrc : (∃ e ∈ q, e.resource_ = rid ∧ e.time_ ≤ now) ∨ rid ∈ added) :
    rid ∈ msgResources (resourceLoop now ttl q added msg emp).1 := by
  induction q generalizing added msg emp with
  | nil =>
    rcases hsrc with ⟨e, he, _⟩ | hmem
    · exact absurd he (List.not_mem_nil e)
    · simpa [resourceLoop] using (hiff rid).mp hmem
  | cons e rest ih =>
    rcases List.pairwise_cons.mp hsort with ⟨hhead, htail⟩
    have hexptail : ∀ e' ∈ rest, e'.section_ ≠ MdnsResourceSection.kExpired :=
      fun e' he' => hexp e' (List.mem_cons_of_mem _ he')
    have hsrc' : (∃ e' ∈ rest, e'.resource_ = rid ∧ e'.time_ ≤ now) ∨
        (rid ∈ added ∨ (e.resource_ = rid ∧ e.time_ ≤ now)) := by
      rcases hsrc with ⟨e', he', hre, hte⟩ | hmem
      · rcases List.mem_cons.mp he' with rfl | he'
        · exact Or.inr (Or.inr ⟨hre, hte⟩)
        · exact Or.inl ⟨e', he', hre, hte⟩
      · exact Or.inr (Or.inl hmem)
    simp only [resourceLoop]
    split_ifs with h1 h2 h3
    · -- head due, tombstoned: skipped; rid cannot be this head if it were the only source,
      -- because ttl rid ≠ cancel
      refine ih added msg emp htail hexptail hiff ?_
      rcases hsrc' with hs | (hmem | ⟨hre, _⟩)
      · exact Or.inl hs
      · exact Or.inr hmem
      · exact absurd (hre ▸ h2) hrid
    · -- head due, already added
      refine ih added msg emp htail hexptail hiff ?_
      rcases hsrc' with hs | (hmem | ⟨hre, _⟩)
      · exact Or.inl hs
      · exact Or.inr hmem
      · exact Or.inr (hre ▸ h3)
    · -- head due, pushed into its section
      have hsec := hexp e (List.mem_cons_self _ _)
      have key : ∀ msg' : OutMessage,
          (∀ r, r ∈ e.resource_ :: added ↔ r ∈ msgResources msg') →
          rid ∈ msgResources (resourceLoop now ttl rest (e.resource_ :: added) msg' false).1 := by
        intro msg' hiff'
        refine ih _ _ _ htail hexptail hiff' ?_
        rcases hsrc' with hs | (hmem | ⟨hre, _⟩)
        · exact Or.inl hs
        · exact Or.inr (List.mem_cons_of_mem _ hmem)
        · exact Or.inr (hre ▸ List.mem_cons_self _ _)
      cases hs : e.section_
      · simp only [hs]
        refine key _ (iff_extend hiff ?_)
        intro r
        simp [msgResources]
        tauto
      · simp only [hs]
        refine key _ (iff_extend hiff ?_)
        intro r
        simp [msgResources]
        tauto
      · simp only [hs]
        refine key _ (iff_extend hiff ?_)
        intro r
        simp [msgResources]
        tauto
      · exact absurd hs hsec
    · -- head not due: loop stops; a due source in the queue is impossible (sorted)
      rcases hsrc' with ⟨e', he', _, hte⟩ | (hmem | ⟨_, hte⟩)
      · exact absurd (le_trans (hhead e' he') hte) h1
      · exact (hiff rid).mp hmem
      · exact absurd hte h1

lemma resourceLoop_emp_msg (now : TimePoint) (ttl : TtlStore)
    (q : List ResourceEntry) (added : List ResourceId) (msg : OutMessage) (emp : Bool) :
    (resourceLoop now ttl q added msg emp).2.2 = true →
      (resourceLoop now ttl q added msg emp).1 = msg := by
  induction q generalizing added msg emp with
  | nil => simp [resourceLoop]
  | cons e rest ih =>
    simp only [resourceLoop]
    split_ifs with h1 h2 h3
    · exact ih added msg emp
    · exact ih added msg emp
    · intro h
      cases hs : e.section_ <;> simp only [hs] at h <;>
        exact absurd (resourceLoop_emp_mono now ttl rest _ _ _ h) (by simp)
    · intro _; rfl

lemma goodbyeRewrite_apply (rids : List ResourceId) (ttl : TtlStore) (r : ResourceId) :
    goodbyeRewrite rids ttl r =
      if r ∈ rids ∧ ttl r = 0 then kCancelTimeToLive else ttl r := by
  induction rids generalizing ttl with
  | nil => simp [goodbyeRewrite]
  | cons x rids ih =>
    have hcne : kCancelTimeToLive ≠ 0 := by decide
    simp only [goodbyeRewrite, List.foldl_cons] at ih ⊢
    rw [ih]
    by_cases h0 : ttl x = 0 <;> by_cases hrx : r = x <;>
      simp [h0, hrx, hcne, List.mem_cons]

/-- After the post-send rewrite over all three sections, every resource of the
message whose TTL was 0 holds `kCancelTimeToLive`. -/
lemma goodbye3_cancel (m : OutMessage) (ttl : TtlStore) (rid : ResourceId)
    (hmem : rid ∈ msgResources m) (h0 : ttl rid = 0) :
    goodbyeRewrite m.additionals_
      (goodbyeRewrite m.authorities_ (goodbyeRewrite m.answers_ ttl)) rid =
      kCancelTimeToLive := by
  have hcne : kCancelTimeToLive ≠ 0 := by decide
  by_cases ha : rid ∈ m.answers_
  · have e1 : goodbyeRewrite m.answers_ ttl rid = kCancelTimeToLive := by
      rw [goodbyeRewrite_apply]; simp [ha, h0]
    have e2 : goodbyeRewrite m.authorities_ (goodbyeRewrite m.answers_ ttl) rid =
        kCancelTimeToLive := by
      rw [goodbyeRewrite_apply, e1]; simp [hcne]
    rw [goodbyeRewrite_apply, e2]; simp [hcne]
  · have e1 : goodbyeRewrite m.answers_ ttl rid = ttl rid := by
      rw [goodbyeRewrite_apply]; simp [ha]
    by_cases hau : rid ∈ m.authorities_
    · have e2 : goodbyeRewrite m.authorities_ (goodbyeRewrite m.answers_ ttl) rid =
          kCancelTimeToLive := by
        rw [goodbyeRewrite_apply, e1]; simp [hau, h0]
      rw [goodbyeRewrite_apply, e2]; simp [hcne]
    · have had : rid ∈ m.additionals_ := by
        simp [msgResources] at hmem
        tauto
      have e2 : goodbyeRewrite m.authorities_ (goodbyeRewrite m.answers_ ttl) rid =
          ttl rid := by
        rw [goodbyeRewrite_apply, e1]; simp [hau]
      rw [goodbyeRewrite_apply, e2]; simp [had, h0]

lemma sendMessage_sent_eq (st : SendState) (now0 : Nat) (m : OutMessage)
    (hm : (sendMessage st now0).sent = some m) :
    m = (builtLoop st now0).1 ∧ (builtLoop st now0).2.2 = false := by
  by_cases hb : (builtLoop st now0).2.2 = true
  · simp [sendMessage, hb] at hm
  · simp only [Bool.not_eq_true] at hb
    simp [sendMessage, hb] at hm
    exact ⟨hm.symm, hb⟩

lemma sendMessage_rq (st : SendState) (now0 : Nat) :
    (sendMessage st now0).resource_queue_ = (builtLoop st now0).2.1 := by
  by_cases hb : (builtLoop st now0).2.2 = true <;>
    simp [sendMessage, hb]

lemma sendMessage_ttl_of_sent (st : SendState) (now0 : Nat) (m : OutMessage)
    (hm : (sendMessage st now0).sent = some m) :
    (sendMessage st now0).ttl =
      goodbyeRewrite m.additionals_
        (goodbyeRewrite m.authorities_ (goodbyeRewrite m.answers_ st.ttl)) := by
  rcases sendMessage_sent_eq st now0 m hm with ⟨rfl, hb⟩
  simp [sendMessage, hb]

/-- Helper shared by the tombstone and goodbye claims: every resource of a
message actually handed to the transceiver had `time_to_live_ ≠
kCancelTimeToLive` (in the engine state at the moment of the call). -/
lemma sent_ttl_ne_cancel (st : SendState) (now0 : Nat) (m : OutMessage)
    (hm : (sendMessage st now0).sent = some m) :
    ∀ rid ∈ msgResources m, st.ttl rid ≠ kCancelTimeToLive := by
  rcases sendMessage_sent_eq st now0 m hm with ⟨rfl, _⟩
  exact resourceLoop_ttl_ne _ _ _ _ _ _ (by simp [msgResources])

/-- C1: a message assembled by `Mdns::SendMessage` never references the same
`DnsResource` instance twice across answers, authorities and additionals
(pointer identity); and when a resource with non-tombstone TTL has at least
one due queue entry (in an expiration-free, heap-ordered queue), exactly one
reference to it is placed in the outbound message. -/
theorem sendMessage_no_duplicate_resources (st : SendState) (now0 : Nat) :
    (∀ m, (sendMessage st now0).sent = some m → (msgResources m).Nodup) ∧
    (st.resource_queue_.Pairwise entryLe →
      (∀ e ∈ st.resource_queue_, e.section_ ≠ MdnsResourceSection.kExpired) →
      ∀ rid, st.ttl rid ≠ kCancelTimeToLive →
        (∃ e ∈ st.resource_queue_, e.resource_ = rid ∧ e.time_ ≤ aggregationDeadline now0) →
        ∃ m, (sendMessage st now0).sent = some m ∧ (msgResources m).count rid = 1) := by
  constructor
  · intro m hm
    rcases sendMessage_sent_eq st now0 m hm with ⟨rfl, _⟩
    exact resourceLoop_nodup _ _ _ _ _ _ (by simp [msgResources]) (by simp [msgResources])
  · intro hsort hexp rid hrid hdue
    have hmem : rid ∈ msgResources (builtLoop st now0).1 :=
      resourceLoop_mem_of_due _ _ _ _ _ _ hsort hexp
        (by intro r; simp [msgResources]) rid hrid (Or.inl hdue)
    have hemp : (builtLoop st now0).2.2 = false := by
      cases hb : (builtLoop st now0).2.2 with
      | false => rfl
      | true =>
        have hmsg : (builtLoop st now0).1 = ⟨(builtQuestions st now0).1, [], [], []⟩ :=
          resourceLoop_emp_msg _ _ _ _ _ _ hb
        rw [hmsg] at hmem
        simp [msgResources] at hmem
    refine ⟨(builtLoop st now0).1, by simp [sendMessage, hemp], ?_⟩
    exact List.count_eq_one_of_mem
      (resourceLoop_nodup _ _ _ _ _ _ (by simp [msgResources]) (by simp [msgResources])) hmem

def c1WitnessState : SendState :=
  { question_queue_ := []
    resource_queue_ := [⟨(0 : Nat), 7, .kAnswer⟩, ⟨(0 : Nat), 7, .kAnswer⟩]
    ttl := fun _ => 120 }

/-- Witness for C1: the same shared resource (id 7) enqueued twice with both
times due appears exactly once in the assembled message. -/
theorem sendMessage_no_duplicate_resources_witness :
    ∃ m, (sendMessage c1WitnessState 0).sent = some m ∧ (msgResources m).count 7 = 1 :=
  (sendMessage_no_duplicate_resources c1WitnessState 0).2 (by decide) (by decide) 7
    (by decide) ⟨⟨(0 : Nat), 7, .kAnswer⟩, by decide, rfl, by decide⟩

/-- C2: a heap-ordered drain removes every due entry from `resource_queue_`
(tombstoned entries included), and a resource whose `time_to_live_` is
`kCancelTimeToLive` at assembly time is never part of a message handed to the
transceiver. -/
theorem sendMessage_removes_due_tombstones (st : SendState) (now0 : Nat)
    (hsort : st.resource_queue_.Pairwise entryLe) :
    (∀ e ∈ (sendMessage st now0).resource_queue_, ¬ e.time_ ≤ aggregationDeadline now0) ∧
    (∀ m, (sendMessage st now0).sent = some m →
      ∀ rid ∈ msgResources m, st.ttl rid ≠ kCancelTimeToLive) := by
  constructor
  · rw [sendMessage_rq]
    exact resourceLoop_rest_not_due _ _ _ _ _ _ hsort
  · intro m hm
    exact sent_ttl_ne_cancel st now0 m hm

def c2WitnessState : SendState :=
  { question_queue_ := []
    resource_queue_ := [⟨(0 : Nat), 3, .kAnswer⟩, ⟨(1000 : Nat), 4, .kAnswer⟩]
    ttl := fun _ => 120 }

/-- Witness for C2: after assembly at time 0 every due entry is gone, and the
resource actually sent (id 3) had a non-tombstone TTL. -/
theorem sendMessage_removes_due_tombstones_witness :
    (∀ e ∈ (sendMessage c2WitnessState 0).resource_queue_,
      ¬ e.time_ ≤ aggregationDeadline 0) ∧
    c2WitnessState.ttl 3 ≠ kCancelTimeToLive :=
  ⟨(sendMessage_removes_due_tombstones c2WitnessState 0 (by decide)).1,
   (sendMessage_removes_due_tombstones c2WitnessState 0 (by decide)).2
     ⟨[], [3], [], []⟩ (by decide) 3 (by decide)⟩

/-- C3: after a message is handed to the transceiver, every resource in it
whose TTL was 0 is rewritten in place to `kCancelTimeToLive`; a resource
holding `kCancelTimeToLive` is excluded from every later assembly, so a
goodbye record is transmitted at most once. -/
theorem sendMessage_goodbye_rewrite (st : SendState) (now0 : Nat) (m : OutMessage)
    (hm : (sendMessage st now0).sent = some m) :
    ∀ rid ∈ msgResources m, st.ttl rid = 0 →
      (sendMessage st now0).ttl rid = kCancelTimeToLive ∧
      (∀ st2 now2 m2, st2.ttl rid = kCancelTimeToLive →
        (sendMessage st2 now2).sent = some m2 → rid ∉ msgResources m2) := by
  intro rid hmem h0
  refine ⟨?_, ?_⟩
  · rw [sendMessage_ttl_of_sent st now0 m hm]
    exact goodbye3_cancel m st.ttl rid hmem h0
  · intro st2 now2 m2 hc hm2 hmem2
    exact sent_ttl_ne_cancel st2 now2 m2 hm2 rid hmem2 hc

def c3WitnessState : SendState :=
  { question_queue_ := []
    resource_queue_ := [⟨(0 : Nat), 5, .kAnswer⟩]
    ttl := fun _ => 0 }

/-- Witness for C3: a TTL-0 resource (id 5) sent in a message holds
`kCancelTimeToLive` afterwards. -/
theorem sendMessage_goodbye_rewrite_witness :
    (sendMessage c3WitnessState 0).ttl 5 = kCancelTimeToLive :=
  (sendMessage_goodbye_rewrite c3WitnessState 0 ⟨[], [5], [], []⟩ (by decide) 5
    (by decide) rfl).1

/-- Counterexample to C4: a due, non-tombstoned queue entry with section
`kExpired` adds nothing to the message, yet (release builds, where
`FTL_DCHECK(false)` is compiled out) the loop still clears `empty` at
mdns.cc:266, so the engine hands the transceiver a message containing no
question and no resource — the claim's "sends nothing" fails. -/
theorem sendMessage_expired_entry_sends_empty_message :
    (sendMessage
      { question_queue_ := []
        resource_queue_ := [⟨(0 : Nat), 0, MdnsResourceSection.kExpired⟩]
        ttl := fun _ => 1 } 0).sent = some ⟨[], [], [], []⟩ := by decide

/-- C4 (amended): provided the drain dequeues no due, non-tombstoned,
non-duplicate entry with section `kExpired` (`expiredProcessed` false — a
non-due or tombstoned or already-added Expired entry may sit in the queue),
a `Mdns::SendMessage` call that adds no question and no resource does not
call the transceiver — equivalently, every message handed to the transceiver
contains a question or a resource. -/
theorem sendMessage_sends_only_nonempty (st : SendState) (now0 : Nat)
    (hexp : expiredProcessed (aggregationDeadline now0) st.ttl st.resource_queue_ [] = false) :
    ∀ m, (sendMessage st now0).sent = some m →
      m.questions_ ≠ [] ∨ msgResources m ≠ [] := by
  intro m hm
  rcases sendMessage_sent_eq st now0 m hm with ⟨rfl, hb⟩
  rcases resourceLoop_emp_false _ _ _ _ _ _ hexp hb with hq | hne
  · left
    have hq1 : (builtLoop st now0).1.questions_ = (builtQuestions st now0).1 :=
      resourceLoop_questions _ _ _ _ _ _
    rw [hq1]
    intro hnil
    have : (builtQuestions st now0).2.2 = true :=
      (questionLoop_empty_iff _ _).mpr hnil
    rw [this] at hq
    exact absurd hq (by simp)
  · right
    exact hne

def c4WitnessState : SendState :=
  { question_queue_ := [⟨(0 : Nat), 5⟩]
    resource_queue_ := [⟨(0 : Nat), 9, .kExpired⟩, ⟨(1000 : Nat), 8, .kExpired⟩]
    ttl := fun r => if r = 9 then kCancelTimeToLive else 1 }

/-- Witness for C4 (amended): with a due-but-tombstoned Expired entry and a
not-yet-due Expired entry in the queue, no Expired entry is processed, and
the message sent for the single due question is nonempty. -/
theorem sendMessage_sends_only_nonempty_witness :
    ({ questions_ := [5], answers_ := [], authorities_ := [], additionals_ := [] }
        : OutMessage).questions_ ≠ [] ∨
      msgResources ⟨[5], [], [], []⟩ ≠ [] :=
  sendMessage_sends_only_nonempty c4WitnessState 0 (by decide) ⟨[5], [], [], []⟩ (by decide)

lemma ite_gt_eq_min (a b : TimePoint) : (if a > b then b else a) = min a b := by
  by_cases h : a > b
  · rw [if_pos h, min_eq_right (le_of_lt h)]
  · rw [if_neg h, min_eq_left (le_of_not_lt h)]

lemma postTaskWhen_eq_min (wq : List WakeEntry) (qq : List QuestionEntry)
    (rq : List ResourceEntry) :
    postTaskWhen wq qq rq =
      min (min (match wq with | [] => (⊤ : TimePoint) | e :: _ => e.time_)
               (match qq with | [] => (⊤ : TimePoint) | e :: _ => e.time_))
          (match rq with | [] => (⊤ : TimePoint) | e :: _ => e.time_) := by
  cases wq <;> cases qq <;> cases rq <;>
    simp only [postTaskWhen, ite_gt_eq_min, min_top_left, min_top_right]

/-- Counterexample to C5: with `wake_queue_` holding one entry scheduled at
`ftl::TimePoint::Max()` and everything else empty, the three queues are not
all empty and `post_task_queue_` holds no timestamp `≤ when`, yet `PostTask`
pushes nothing and arms no timer: mdns.cc:337 returns as soon as `when ==
ftl::TimePoint::Max()`. -/
theorem postTask_max_sentinel_counterexample :
    postTask [⟨(⊤ : TimePoint), 0⟩] [] [] [] = ([], none) ∧
      ([⟨(⊤ : TimePoint), 0⟩] : List WakeEntry) ≠ [] := by
  exact ⟨rfl, by decide⟩

/-- C5 (amended): `PostTask` computes `when` as the minimum of the head times
of the non-empty queues; if all queues are empty, or `when` equals
`TimePoint::Max()` (entries scheduled "never"), no timer is armed; if
`post_task_queue_` already holds a timestamp `≤ when`, no timer is armed;
otherwise `when` is pushed onto `post_task_queue_` and exactly one timer is
armed for `when` — a time for which no timer was already pending. -/
theorem postTask_single_timer_per_wake (wq : List WakeEntry) (qq : List QuestionEntry)
    (rq : List ResourceEntry) (ptq : List TimePoint)
    (hsort : ptq.Pairwise (· ≤ ·)) :
    (postTaskWhen wq qq rq =
      min (min (match wq with | [] => (⊤ : TimePoint) | e :: _ => e.time_)
               (match qq with | [] => (⊤ : TimePoint) | e :: _ => e.time_))
          (match rq with | [] => (⊤ : TimePoint) | e :: _ => e.time_)) ∧
    (wq = [] ∧ qq = [] ∧ rq = [] → postTask wq qq rq ptq = (ptq, none)) ∧
    (postTaskWhen wq qq rq = ⊤ → postTask wq qq rq ptq = (ptq, none)) ∧
    ((∃ t ∈ ptq, t ≤ postTaskWhen wq qq rq) → postTask wq qq rq ptq = (ptq, none)) ∧
    (postTaskWhen wq qq rq ≠ ⊤ → (∀ t ∈ ptq, ¬ t ≤ postTaskWhen wq qq rq) →
      postTask wq qq rq ptq =
        (List.orderedInsert (· ≤ ·) (postTaskWhen wq qq rq) ptq,
         some (postTaskWhen wq qq rq)) ∧
      postTaskWhen wq qq rq ∉ ptq) := by
  refine ⟨postTaskWhen_eq_min wq qq rq, ?_, ?_, ?_, ?_⟩
  · rintro ⟨rfl, rfl, rfl⟩
    simp [postTask, postTaskWhen]
  · intro htop
    simp [postTask, htop]
  · intro hex
    by_cases htop : postTaskWhen wq qq rq = ⊤
    · simp [postTask, htop]
    · obtain ⟨t, ht, hle⟩ := hex
      cases hp : ptq with
      | nil => rw [hp] at ht; exact absurd ht (List.not_mem_nil t)
      | cons t0 rest =>
        have ht0 : t0 ≤ postTaskWhen wq qq rq := by
          rw [hp] at ht hsort
          rcases List.mem_cons.mp ht with rfl | htl
          · exact hle
          · exact le_trans ((List.pairwise_cons.mp hsort).1 t htl) hle
        simp [postTask, htop, hp, ht0]
  · intro htop hall
    have hnm : postTaskWhen wq qq rq ∉ ptq := fun hc => hall _ hc le_rfl
    refine ⟨?_, hnm⟩
    cases hp : ptq with
    | nil => simp [postTask, htop]
    | cons t0 rest =>
      have ht0 : ¬ t0 ≤ postTaskWhen wq qq rq := hall t0 (by rw [hp]; exact List.mem_cons_self _ _)
      simp [postTask, htop, hp, ht0]

def c5WitnessPtq : List TimePoint := [((200 : Nat) : TimePoint)]

/-- Witness for C5 (amended): a wake entry due at 5 with only a later
timestamp (200) pending causes one timer to be armed for 5, which was not
already pending. -/
theorem postTask_single_timer_per_wake_witness :
    (postTask [⟨((5 : Nat) : TimePoint), 1⟩] [] [] c5WitnessPtq =
      (List.orderedInsert (· ≤ ·) (postTaskWhen [⟨((5 : Nat) : TimePoint), 1⟩] [] []) c5WitnessPtq,
       some (postTaskWhen [⟨((5 : Nat) : TimePoint), 1⟩] [] [])) ∧
      postTaskWhen [⟨((5 : Nat) : TimePoint), 1⟩] [] [] ∉ c5WitnessPtq) :=
  (postTask_single_timer_per_wake [⟨((5 : Nat) : TimePoint), 1⟩] [] [] c5WitnessPtq
      (by decide)).2.2.2.2 (by decide) (by decide)

/-- C7: `SendResource(r, section, when)` with `section == kExpired`
immediately invokes `ReceiveResource(r, kExpired)` on every registered agent
and leaves `resource_queue_` untouched (expirations are never enqueued for
transmission); with any other section it pushes `(when, r, section)` onto
`resource_queue_` and invokes no agent callback. -/
theorem sendResource_expired_fanout (agents : List AgentEntry) (rq : List ResourceEntry)
    (r : ResourceId) (sec : MdnsResourceSection) (when : TimePoint) :
    (sec = MdnsResourceSection.kExpired →
      (sendResource agents rq r sec when).2 = rq ∧
      (sendResource agents rq r sec when).1 =
        agents.map (fun p => (p.2, r, MdnsResourceSection.kExpired)) ∧
      ∀ p ∈ agents, (p.2, r, MdnsResourceSection.kExpired) ∈ (sendResource agents rq r sec when).1) ∧
    (sec ≠ MdnsResourceSection.kExpired →
      (sendResource agents rq r sec when).1 = [] ∧
      (sendResource agents rq r sec when).2 = List.orderedInsert entryLe ⟨when, r, sec⟩ rq ∧
      (⟨when, r, sec⟩ : ResourceEntry) ∈ (sendResource agents rq r sec when).2) := by
  constructor
  · rintro rfl
    refine ⟨by simp [sendResource], by simp [sendResource], ?_⟩
    intro p hp
    exact List.mem_map.mpr ⟨p, hp, rfl⟩
  · intro h
    refine ⟨by simp [sendResource, h], by simp [sendResource, h], ?_⟩
    simp [sendResource, h, List.mem_orderedInsert]

/-- Witness for C7: both branches at concrete inputs — the expired branch
reaches both registered agents without touching the queue, the answer branch
enqueues without callbacks. -/
theorem sendResource_expired_fanout_witness :
    ((sendResource [("a", 1), ("b", 2)] [] 9 MdnsResourceSection.kExpired ((0 : Nat) : TimePoint)).2 = [] ∧
      (sendResource [("a", 1), ("b", 2)] [] 9 MdnsResourceSection.kExpired ((0 : Nat) : TimePoint)).1 =
        [("a", 1), ("b", 2)].map (fun p => (p.2, 9, MdnsResourceSection.kExpired)) ∧
      ∀ p ∈ ([("a", 1), ("b", 2)] : List AgentEntry),
        (p.2, 9, MdnsResourceSection.kExpired) ∈
          (sendResource [("a", 1), ("b", 2)] [] 9 MdnsResourceSection.kExpired ((0 : Nat) : TimePoint)).1) ∧
    ((sendResource [("a", 1), ("b", 2)] [] 9 MdnsResourceSection.kAnswer ((0 : Nat) : TimePoint)).1 = [] ∧
      (sendResource [("a", 1), ("b", 2)] [] 9 MdnsResourceSection.kAnswer ((0 : Nat) : TimePoint)).2 =
        List.orderedInsert entryLe ⟨((0 : Nat) : TimePoint), 9, MdnsResourceSection.kAnswer⟩ [] ∧
      (⟨((0 : Nat) : TimePoint), 9, MdnsResourceSection.kAnswer⟩ : ResourceEntry) ∈
        (sendResource [("a", 1), ("b", 2)] [] 9 MdnsResourceSection.kAnswer ((0 : Nat) : TimePoint)).2) :=
  ⟨(sendResource_expired_fanout [("a", 1), ("b", 2)] [] 9 MdnsResourceSection.kExpired
      ((0 : Nat) : TimePoint)).1 rfl,
   (sendResource_expired_fanout [("a", 1), ("b", 2)] [] 9 MdnsResourceSection.kAnswer
      ((0 : Nat) : TimePoint)).2 (by decide)⟩

/-- Counterexample to C8: `"x"` is not a valid service name, yet
`SubscribeToService` (release builds: the validity `FTL_DCHECK` at
mdns.cc:125 compiles out; the function returns void, so no error can be
surfaced) registers a subscriber agent — the engine's state changes. -/
theorem subscribeToService_invalid_name_changes_state :
    isValidServiceName "x" = false ∧
    (subscribeToService startEngine "x").agents_by_name_ ≠ startEngine.agents_by_name_ := by
  exact ⟨by decide, by decide⟩

/-- C8 (amended): in release builds no validity error is surfaced
(`SubscribeToService` and `PublishServiceInstance` return void, and the
validity checks are `FTL_DCHECK`s, compiled out); regardless of name
validity, whenever the computed registry key is fresh, the call registers an
agent under it — the engine's state is changed, not preserved.  In debug
builds an invalid name aborts the process. -/
theorem configuration_ops_register_unconditionally (st : EngineState)
    (service_name instance_name : String) :
    (localServiceFullName service_name ∉ st.agents_by_name_.map Prod.fst →
      (subscribeToService st service_name).agents_by_name_ =
        st.agents_by_name_ ++ [(localServiceFullName service_name, st.next_id_)]) ∧
    (localInstanceFullName instance_name service_name ∉ st.agents_by_name_.map Prod.fst →
      (publishServiceInstance st instance_name service_name).agents_by_name_ =
        st.agents_by_name_ ++ [(localInstanceFullName instance_name service_name, st.next_id_)]) := by
  constructor
  · intro h
    simp [subscribeToService, addAgent, h]
  · intro h
    simp [publishServiceInstance, addAgent, h]

/-- Witness for C8 (amended): subscribing to the (invalid) service name "x"
and publishing instance "i" of "x" both append a fresh agent. -/
theorem configuration_ops_register_unconditionally_witness :
    ((subscribeToService startEngine "x").agents_by_name_ =
      startEngine.agents_by_name_ ++ [(localServiceFullName "x", startEngine.next_id_)]) ∧
    ((publishServiceInstance startEngine "i" "x").agents_by_name_ =
      startEngine.agents_by_name_ ++ [(localInstanceFullName "i" "x", startEngine.next_id_)]) :=
  ⟨(configuration_ops_register_unconditionally startEngine "x" "i").1 (by decide),
   (configuration_ops_register_unconditionally startEngine "x" "i").2 (by decide)⟩

/-- Counterexample to C9: copying a well-formed OPAQUE resource (tag
`kOpaque`, payload `opaque [1, 2]`) yields a copy with no payload stored —
the switch's `default: break` (dns_message.cc:86-87) copies no union member —
so the copy's stored payload is not the variant matching its tag. -/
theorem copyResource_opaque_counterexample :
    ({ name_ := "x.local.", type_ := .kOpaque, class_ := 1, cache_flush_ := false,
       time_to_live_ := 120, payload_ := some (.opaqueData [1, 2]) } : DnsResource).payload_ =
        some (DnsResourceData.opaqueData [1, 2]) ∧
    (copyResource
      { name_ := "x.local.", type_ := .kOpaque, class_ := 1, cache_flush_ := false,
        time_to_live_ := 120, payload_ := some (.opaqueData [1, 2]) }).payload_ = none := by
  exact ⟨rfl, rfl⟩

/-- C9 (amended): copying a `DnsResource` preserves name, type, class,
cache-flush bit and TTL; for the eight explicitly handled tags, when the
source's payload matches its tag, the copy stores exactly that payload; for
any other tag (the OPAQUE raw-bytes case) the `default` branch copies
nothing and the copy's payload member stays unassigned. -/
theorem copyResource_spec (r : DnsResource) :
    (copyResource r).name_ = r.name_ ∧
    (copyResource r).type_ = r.type_ ∧
    (copyResource r).class_ = r.class_ ∧
    (copyResource r).cache_flush_ = r.cache_flush_ ∧
    (copyResource r).time_to_live_ = r.time_to_live_ ∧
    (r.type_ ≠ DnsType.kOpaque →
      ∀ p, r.payload_ = some p → p.tag = r.type_ →
        (copyResource r).payload_ = r.payload_) ∧
    (r.type_ = DnsType.kOpaque → (copyResource r).payload_ = none) := by
  refine ⟨rfl, rfl, rfl, rfl, rfl, ?_, ?_⟩
  · intro hne p hp htag
    cases p <;> simp only [DnsResourceData.tag] at htag <;>
      first
        | exact absurd htag.symm hne
        | (simp only [copyResource]; rw [← htag]; simp [hp])
  · intro h
    simp [copyResource, h]

def c9WitnessResource : DnsResource :=
  { name_ := "alpha.local.", type_ := .kA, class_ := 1, cache_flush_ := false,
    time_to_live_ := 120, payload_ := some (.a 5) }

/-- Witness for C9 (amended): copying a well-formed A record preserves the
payload. -/
theorem copyResource_spec_witness :
    (copyResource c9WitnessResource).payload_ = c9WitnessResource.payload_ :=
  (copyResource_spec c9WitnessResource).2.2.2.2.2.1 (by decide) (DnsResourceData.a 5) rfl rfl

/-- The registry invariant: the renewer's object identity was allocated
before `next_id_` and differs from every registered agent's identity. -/
def registryInv (st : EngineState) : Prop :=
  st.resource_renewer_ < st.next_id_ ∧
  ∀ p ∈ st.agents_by_name_, p.2 < st.next_id_ ∧ p.2 ≠ st.resource_renewer_

lemma registryInv_start : registryInv startEngine := by
  constructor
  · decide
  · intro p hp
    simp [startEngine, addAgent, kAddressResponderName] at hp
    simp [hp, startEngine, addAgent]

lemma registryInv_step (st : EngineState) (op : EngineOp) (h : registryInv st) :
    registryInv (engineStep st op) := by
  obtain ⟨hrn, hag⟩ := h
  have haddInv : ∀ name, registryInv (addAgent st name) := by
    intro name
    constructor
    · simp [addAgent]
      omega
    · intro p hp
      simp only [addAgent] at hp
      split_ifs at hp with hk
      · have := hag p hp
        simp [addAgent]
        omega
      · simp at hp
        rcases hp with hp | hp
        · have := hag p hp
          simp [addAgent]
          omega
        · simp [hp, addAgent]
          omega
  cases op with
  | resolveHostName hn => exact haddInv _
  | subscribeToService s => exact haddInv _
  | publishServiceInstance i s => exact haddInv _
  | removeAgent n =>
    refine ⟨hrn, ?_⟩
    intro p hp
    have hp' : p ∈ st.agents_by_name_.filter (fun q => q.1 ≠ n) := hp
    exact hag p (List.mem_filter.mp hp').1

lemma registryInv_run (ops : List EngineOp) : registryInv (runEngine ops) := by
  suffices h : ∀ st, registryInv st → registryInv (ops.foldl engineStep st) from
    h startEngine registryInv_start
  induction ops with
  | nil => intro st h; exact h
  | cons op rest ih =>
    intro st h
    exact ih _ (registryInv_step st op h)

lemma expiredFanoutRecipients_eq (st : EngineState) (r : ResourceId) :
    expiredFanoutRecipients st r = st.agents_by_name_.map Prod.snd := by
  show ((st.agents_by_name_.map fun p => (p.2, r, MdnsResourceSection.kExpired)).map Prod.fst) =
    st.agents_by_name_.map Prod.snd
  rw [List.map_map]
  rfl

/-- C10: in every engine state reachable from `Start` through the public
operations, the resource renewer is not in the agent registry; hence neither
the `ReceiveQuestion` fan-out nor the `SendResource(..., kExpired, ...)`
fan-out — both of which iterate `agents_by_name_` — ever invokes the
renewer's callback. -/
theorem renewer_never_in_fanouts (ops : List EngineOp) :
    (runEngine ops).resource_renewer_ ∉ receiveQuestionRecipients (runEngine ops) ∧
    ∀ r : ResourceId,
      (runEngine ops).resource_renewer_ ∉ expiredFanoutRecipients (runEngine ops) r := by
  obtain ⟨hrn, hag⟩ := registryInv_run ops
  have hnotin : (runEngine ops).resource_renewer_ ∉
      (runEngine ops).agents_by_name_.map Prod.snd := by
    intro hc
    obtain ⟨p, hp, hpe⟩ := List.mem_map.mp hc
    exact (hag p hp).2 hpe
  refine ⟨hnotin, ?_⟩
  intro r
  rw [expiredFanoutRecipients_eq]
  exact hnotin

lemma mem_receiveQuestionTrace {ags : List Nat} {i : Nat} {e : Ev}
    (he : e ∈ receiveQuestionTrace ags i) : phase e = 0 ∧ subRank e = i := by
  obtain ⟨a, _, rfl⟩ := List.mem_map.mp he
  exact ⟨rfl, rfl⟩

lemma mem_receiveResourceTrace {ags : List Nat} {s : MdnsResourceSection} {i : Nat} {e : Ev}
    (he : e ∈ receiveResourceTrace ags s i) :
    phase e = sectionRank s ∧ 2 * i ≤ subRank e ∧ subRank e ≤ 2 * i + 1 := by
  rcases List.mem_cons.mp he with rfl | hm
  · exact ⟨rfl, by simp [subRank, recvRank], by simp [subRank, recvRank]⟩
  · obtain ⟨a, _, rfl⟩ := List.mem_map.mp hm
    exact ⟨rfl, by simp [subRank, recvRank], by simp [subRank, recvRank]⟩

lemma mem_endOfMessageTrace {ags : List Nat} {e : Ev}
    (he : e ∈ endOfMessageTrace ags) : phase e = 5 := by
  rcases List.mem_cons.mp he with rfl | hm
  · rfl
  · obtain ⟨a, _, rfl⟩ := List.mem_map.mp hm
    rfl

lemma pairwise_of_all {α : Type} {R : α → α → Prop} (h : ∀ a b, R a b) (l : List α) :
    l.Pairwise R := by
  induction l with
  | nil => exact List.Pairwise.nil
  | cons a l ih => exact List.Pairwise.cons (fun b _ => h a b) ih

lemma receiveQuestionTrace_pairwise (ags : List Nat) (i : Nat) :
    (receiveQuestionTrace ags i).Pairwise evLe :=
  List.pairwise_map.mpr (pairwise_of_all (fun _ _ => Or.inr ⟨rfl, le_refl _⟩) ags)

lemma receiveResourceTrace_pairwise (ags : List Nat) (s : MdnsResourceSection) (i : Nat) :
    (receiveResourceTrace ags s i).Pairwise evLe := by
  refine List.pairwise_cons.mpr ⟨?_, ?_⟩
  · intro e he
    obtain ⟨a, _, rfl⟩ := List.mem_map.mp he
    exact Or.inr ⟨rfl, by simp [subRank, recvRank]⟩
  · exact List.pairwise_map.mpr (pairwise_of_all (fun _ _ => Or.inr ⟨rfl, le_refl _⟩) ags)

lemma endOfMessageTrace_pairwise (ags : List Nat) :
    (endOfMessageTrace ags).Pairwise evLe := by
  refine List.pairwise_cons.mpr ⟨?_, ?_⟩
  · intro e he
    obtain ⟨a, _, rfl⟩ := List.mem_map.mp he
    exact Or.inr ⟨rfl, by simp [subRank, recvRank]⟩
  · exact List.pairwise_map.mpr (pairwise_of_all (fun _ _ => Or.inr ⟨rfl, le_refl _⟩) ags)

lemma pairwise_flatMap_range {f : Nat → List Ev} {p : Nat} {g u : Nat → Nat} (n : Nat)
    (hmem : ∀ i e, e ∈ f i → phase e = p ∧ g i ≤ subRank e ∧ subRank e ≤ u i)
    (hin : ∀ i, (f i).Pairwise evLe)
    (hmono : ∀ i j, i < j → u i ≤ g j) :
    ((List.range n).flatMap f).Pairwise evLe := by
  rw [List.pairwise_flatMap]
  refine ⟨fun a _ => hin a, ?_⟩
  refine (List.pairwise_lt_range n).imp ?_
  intro a b hab x hx y hy
  obtain ⟨hpx, hlox, hhix⟩ := hmem a x hx
  obtain ⟨hpy, hloy, hhiy⟩ := hmem b y hy
  exact Or.inr ⟨hpx.trans hpy.symm, le_trans hhix (le_trans (hmono a b hab) hloy)⟩

lemma qBlock_pairwise (ags : List Nat) (nq : Nat) :
    ((List.range nq).flatMap (receiveQuestionTrace ags)).Pairwise evLe :=
  pairwise_flatMap_range (p := 0) (g := id) (u := id) nq
    (fun _ _ he => ⟨(mem_receiveQuestionTrace he).1, le_of_eq (mem_receiveQuestionTrace he).2.symm,
      le_of_eq (mem_receiveQuestionTrace he).2⟩)
    (receiveQuestionTrace_pairwise ags)
    (fun _ _ h => le_of_lt h)

lemma rBlock_pairwise (ags : List Nat) (s : MdnsResourceSection) (n : Nat) :
    ((List.range n).flatMap (receiveResourceTrace ags s)).Pairwise evLe :=
  pairwise_flatMap_range (p := sectionRank s) (g := fun i => 2 * i) (u := fun i => 2 * i + 1) n
    (fun _ _ he => mem_receiveResourceTrace he)
    (receiveResourceTrace_pairwise ags s)
    (fun i j h => by show 2 * i + 1 ≤ 2 * j; omega)

lemma phase_of_mem_qBlock {nq : Nat} {ags : List Nat} {e : Ev}
    (he : e ∈ (List.range nq).flatMap (receiveQuestionTrace ags)) : phase e = 0 := by
  obtain ⟨i, _, hi⟩ := List.mem_flatMap.mp he
  exact (mem_receiveQuestionTrace hi).1

lemma phase_of_mem_rBlock {n : Nat} {ags : List Nat} {s : MdnsResourceSection} {e : Ev}
    (he : e ∈ (List.range n).flatMap (receiveResourceTrace ags s)) :
    phase e = sectionRank s := by
  obtain ⟨i, _, hi⟩ := List.mem_flatMap.mp he
  exact (mem_receiveResourceTrace hi).1

lemma inboundTrace_pairwise (nq na nau nad : Nat) (ags : List Nat) :
    (inboundTrace nq na nau nad ags).Pairwise evLe := by
  unfold inboundTrace
  refine List.pairwise_append.mpr ⟨?_, endOfMessageTrace_pairwise ags, ?_⟩
  · refine List.pairwise_append.mpr ⟨?_, rBlock_pairwise ags _ nad, ?_⟩
    · refine List.pairwise_append.mpr ⟨?_, rBlock_pairwise ags _ nau, ?_⟩
      · refine List.pairwise_append.mpr
          ⟨qBlock_pairwise ags nq, rBlock_pairwise ags _ na, ?_⟩
        intro x hx y hy
        exact Or.inl (by rw [phase_of_mem_qBlock hx, phase_of_mem_rBlock hy]; decide)
      · intro x hx y hy
        have hpy := phase_of_mem_rBlock hy
        rcases List.mem_append.mp hx with hx | hx
        · exact Or.inl (by rw [phase_of_mem_qBlock hx, hpy]; decide)
        · exact Or.inl (by rw [phase_of_mem_rBlock hx, hpy]; decide)
    · intro x hx y hy
      have hpy := phase_of_mem_rBlock hy
      rcases List.mem_append.mp hx with hx | hx
      · rcases List.mem_append.mp hx with hx | hx
        · exact Or.inl (by rw [phase_of_mem_qBlock hx, hpy]; decide)
        · exact Or.inl (by rw [phase_of_mem_rBlock hx, hpy]; decide)
      · exact Or.inl (by rw [phase_of_mem_rBlock hx, hpy]; decide)
  · intro x hx y hy
    have hpy := mem_endOfMessageTrace hy
    rcases List.mem_append.mp hx with hx | hx
    · rcases List.mem_append.mp hx with hx | hx
      · rcases List.mem_append.mp hx with hx | hx
        · exact Or.inl (by rw [phase_of_mem_qBlock hx, hpy]; decide)
        · exact Or.inl (by rw [phase_of_mem_rBlock hx, hpy]; decide)
      · exact Or.inl (by rw [phase_of_mem_rBlock hx, hpy]; decide)
    · exact Or.inl (by rw [phase_of_mem_rBlock hx, hpy]; decide)

lemma evLt_evLe_absurd {x y : Ev} (h1 : evLt x y) (h2 : evLe y x) : False := by
  rcases h1 with h1 | ⟨he1, h1⟩ <;> rcases h2 with h2 | ⟨he2, h2⟩ <;> omega

lemma pos_lt_of_evLt {t : List Ev} (hp : t.Pairwise evLe) {i j : Nat}
    (hi : i < t.length) (hj : j < t.length)
    (hlt : evLt (t.get ⟨i, hi⟩) (t.get ⟨j, hj⟩)) : i < j := by
  rcases Nat.lt_trichotomy i j with h | h | h
  · exact h
  · subst h
    rcases hlt with h1 | ⟨_, h1⟩ <;> omega
  · have hle := List.pairwise_iff_get.mp hp ⟨j, hj⟩ ⟨i, hi⟩ h
    exact (evLt_evLe_absurd hlt hle).elim

lemma sectionRank_pos (s : MdnsResourceSection) : 0 < sectionRank s := by
  cases s <;> decide

/-- C6: on every inbound packet, the dispatch order of the transceiver
callback satisfies: every question delivery precedes every resource delivery;
resource deliveries respect section order (answers, authorities,
additionals); for each record the renewer's `ReceiveResource` precedes every
agent's for that record; and the renewer's `EndOfMessage` precedes every
agent's. -/
theorem inbound_dispatch_order (nq na nau nad : Nat) (ags : List Nat) :
    (∀ i j (hi : i < (inboundTrace nq na nau nad ags).length)
        (hj : j < (inboundTrace nq na nau nad ags).length) a qi recv s ri,
        (inboundTrace nq na nau nad ags).get ⟨i, hi⟩ = Ev.q a qi →
        (inboundTrace nq na nau nad ags).get ⟨j, hj⟩ = Ev.r recv s ri → i < j) ∧
    (∀ i j (hi : i < (inboundTrace nq na nau nad ags).length)
        (hj : j < (inboundTrace nq na nau nad ags).length) recv recv2 s s2 ri ri2,
        (inboundTrace nq na nau nad ags).get ⟨i, hi⟩ = Ev.r recv s ri →
        (inboundTrace nq na nau nad ags).get ⟨j, hj⟩ = Ev.r recv2 s2 ri2 →
        sectionRank s < sectionRank s2 → i < j) ∧
    (∀ i j (hi : i < (inboundTrace nq na nau nad ags).length)
        (hj : j < (inboundTrace nq na nau nad ags).length) a s ri,
        (inboundTrace nq na nau nad ags).get ⟨i, hi⟩ = Ev.r Recipient.renewer s ri →
        (inboundTrace nq na nau nad ags).get ⟨j, hj⟩ = Ev.r (Recipient.agent a) s ri → i < j) ∧
    (∀ i j (hi : i < (inboundTrace nq na nau nad ags).length)
        (hj : j < (inboundTrace nq na nau nad ags).length) a,
        (inboundTrace nq na nau nad ags).get ⟨i, hi⟩ = Ev.eom Recipient.renewer →
        (inboundTrace nq na nau nad ags).get ⟨j, hj⟩ = Ev.eom (Recipient.agent a) → i < j) := by
  refine ⟨?_, ?_, ?_, ?_⟩
  · intro i j hi hj a qi recv s ri h1 h2
    refine pos_lt_of_evLt (inboundTrace_pairwise nq na nau nad ags) hi hj ?_
    rw [h1, h2]
    exact Or.inl (sectionRank_pos s)
  · intro i j hi hj recv recv2 s s2 ri ri2 h1 h2 hss
    refine pos_lt_of_evLt (inboundTrace_pairwise nq na nau nad ags) hi hj ?_
    rw [h1, h2]
    exact Or.inl hss
  · intro i j hi hj a s ri h1 h2
    refine pos_lt_of_evLt (inboundTrace_pairwise nq na nau nad ags) hi hj ?_
    rw [h1, h2]
    exact Or.inr ⟨rfl, by simp [subRank, recvRank]⟩
  · intro i j hi hj a h1 h2
    refine pos_lt_of_evLt (inboundTrace_pairwise nq na nau nad ags) hi hj ?_
    rw [h1, h2]
    exact Or.inr ⟨rfl, by simp [subRank, recvRank]⟩

/-- Witness for C6: for a packet with one question, one answer, one authority
and one registered agent (id 4), the concrete dispatch positions are ordered
as claimed. -/
theorem inbound_dispatch_order_witness :
    (0 : Nat) < 1 ∧ (1 : Nat) < 3 ∧ (1 : Nat) < 2 ∧ (5 : Nat) < 6 :=
  ⟨(inbound_dispatch_order 1 1 1 0 [4]).1 0 1 (by decide) (by decide) 4 0
      Recipient.renewer MdnsResourceSection.kAnswer 0 rfl rfl,
   (inbound_dispatch_order 1 1 1 0 [4]).2.1 1 3 (by decide) (by decide)
      Recipient.renewer Recipient.renewer MdnsResourceSection.kAnswer
      MdnsResourceSection.kAuthority 0 0 rfl rfl (by decide),
   (inbound_dispatch_order 1 1 1 0 [4]).2.2.1 1 2 (by decide) (by decide) 4
      MdnsResourceSection.kAnswer 0 rfl rfl,
   (inbound_dispatch_order 1 1 1 0 [4]).2.2.2 5 6 (by decide) (by decide) 4 rfl rfl⟩

end Netconnector
